import Mathlib

/-!
Shallow embedding of `vsclone.py` (VSClone: VSCode offline installation/upgrade
tool) and proofs about its snapshot (capture) and reconstruction (apply) phases.

Python strings are modelled as `String` (with `List Char` for character-level
reasoning), Python dicts keyed by platform names as association lists,
`None`-able parameters as `Option`, and fallible operations as `Option`/`Except`.
Network downloads and subprocess exit codes are oracle parameters, so every
definition stays executable.  Python truthiness of a string `s` is `s ≠ ""`,
and truthiness of an optional string `o` is `o.getD "" ≠ ""`.
-/

/-- Python `s.split(c)` for a single-character separator `c`: splits at every
occurrence, keeping empty pieces (`"".split(c) == [""]`). -/
def splitOnChar (c : Char) : List Char → List (List Char)
  | [] => [[]]
  | x :: xs =>
    if x = c then
      [] :: splitOnChar c xs
    else
      match splitOnChar c xs with
      | [] => [[x]]
      | y :: ys => (x :: y) :: ys

/-- Python tuple unpacking `a, b = l`: succeeds exactly when `l` has exactly two
elements, otherwise raises (modelled as `none`). -/
def exactlyTwo {α : Type} : List α → Option (α × α)
  | [a, b] => some (a, b)
  | _ => none

/-- The `PLATFORM_IDS["installer_id"]` table of `vsclone.py` (insertion order). -/
def installer_id : List (String × String) :=
  [("Linux", "linux-deb-x64"), ("Windows", "win32-x64-user")]

/-- The `PLATFORM_IDS["server_id"]` table of `vsclone.py`. -/
def server_id : List (String × String) :=
  [("Linux", "linux-x64"), ("Windows", "win32-x64")]

/-- The `PLATFORM_IDS["extension_id"]` table of `vsclone.py`. -/
def extension_id : List (String × String) :=
  [("Linux", "linux-x64"), ("Windows", "win32-x64")]

/-- `ParseExtensionString` of `vsclone.py`:
`uid, version = ext_str.split("@"); publisher, package = uid.split(".")`.
Each unpacking raises `ValueError` (the spec's `MalformedToken`, modelled as
`none`) unless the split produced exactly two pieces. -/
def ParseExtensionString (ext_str : String) : Option (String × String × String) :=
  match exactlyTwo (splitOnChar '@' ext_str.data) with
  | none => none
  | some (uid, version) =>
    match exactlyTwo (splitOnChar '.' uid) with
    | none => none
    | some (publisher, package) => some (⟨publisher⟩, ⟨package⟩, ⟨version⟩)

/-- `InstallerURL` of `vsclone.py`. -/
def InstallerURL (version platform_id : String) : String :=
  "https://update.code.visualstudio.com/" ++ version ++ "/" ++ platform_id ++ "/stable"

/-- `ServerURL` of `vsclone.py`. -/
def ServerURL (commit_id platform_id : String) : String :=
  "https://update.code.visualstudio.com/commit:" ++ commit_id ++ "/server-" ++ platform_id ++ "/stable"

/-- `ExtensionURL` of `vsclone.py`.  `platform_id` defaults to `None` in the
source; a falsy (`None` or empty) id yields no `targetPlatform` query parameter.
The `if not backup_api` of the source is rendered with the branches swapped. -/
def ExtensionURL (publisher package version : String) (platform_id : Option String)
    (backup_api : Bool) : String :=
  let query_params : String :=
    if platform_id.getD "" ≠ "" then "?targetPlatform=" ++ platform_id.getD "" else ""
  if backup_api then
    "https://" ++ publisher ++ ".gallery.vsassets.io/_apis/public/gallery/publisher/" ++
      publisher ++ "/extension/" ++ package ++ "/" ++ version ++
      "/assetbyname/Microsoft.VisualStudio.Services.VSIXPackage" ++ query_params
  else
    "https://marketplace.visualstudio.com/_apis/public/gallery/publishers/" ++ publisher ++
      "/vsextensions/" ++ package ++ "/" ++ version ++ "/vspackage" ++ query_params

/-- `ExtensionFilename` of `vsclone.py`: the platform-qualified name when the
optional `platform_id` is truthy, the universal name otherwise. -/
def ExtensionFilename (publisher package version : String) (platform_id : Option String) : String :=
  if platform_id.getD "" ≠ "" then
    publisher ++ "." ++ package ++ "-" ++ version ++ "@" ++ platform_id.getD "" ++ ".vsix"
  else
    publisher ++ "." ++ package ++ "-" ++ version ++ ".vsix"

/-- The quote characters stripped by `.strip("\x27\"")` in
`GetFilenameFromHeaders` (an apostrophe and a double quote). -/
def quoteChars : List Char := [Char.ofNat 39, '"']

/-- Python `s.strip(cs)`: drop characters of `cs` from both ends. -/
def stripChars (cs : List Char) (l : List Char) : List Char :=
  ((l.dropWhile (fun c => cs.contains c)).reverse.dropWhile (fun c => cs.contains c)).reverse

/-- The regex search `re.search(r"filename=([^;]+)", disposition)`: at the first
position where the literal `filename=` matches and is followed by at least one
character other than a semicolon, capture the maximal run of non-semicolon
characters. -/
def findFilenameCapture : List Char → Option (List Char)
  | [] => none
  | x :: xs =>
    let s := x :: xs
    if s.take 9 = "filename=".data ∧ (s.drop 9).takeWhile (· != ';') ≠ [] then
      some ((s.drop 9).takeWhile (· != ';'))
    else
      findFilenameCapture xs

/-- `GetFilenameFromHeaders` of `vsclone.py`, taking the value of the
`content-disposition` header (the empty string when the header is absent):
returns the captured filename with surrounding quotes stripped, or `""`. -/
def GetFilenameFromHeaders (disposition : String) : String :=
  if disposition = "" then ""
  else
    match findFilenameCapture disposition.data with
    | none => ""
    | some m => ⟨stripChars quoteChars m⟩

/-- `Download` of `vsclone.py`.  The network is the oracle `net`, mapping a URL
to `none` when the response is not OK and to the `content-disposition` header
value otherwise; `uuidFor` is the `uuid.uuid4().hex` fallback name generated for
a given request.  On success the final local path is
`path or header_name or uuid` (Python truthiness), and the function returns that
path; on a non-OK response it returns `""`.  The streamed write to disk happens
in the directory `Clone` has changed into. -/
def Download (net : String → Option String) (uuidFor : String → String)
    (url : String) (path : String) : String :=
  match net url with
  | none => ""
  | some disposition =>
    if path ≠ "" then path
    else if GetFilenameFromHeaders disposition ≠ "" then GetFilenameFromHeaders disposition
    else uuidFor url

/-- The installer/server loops of `Clone` (lines 122-142): for each
`(platform, id)` pair download `mkUrl id` with a self-selected name and record
the returned path under `platform`; a falsy result aborts the capture.
`dl` is the download routine (`Download` with its oracles fixed). -/
def fetchAll (dl : String → String → String) (mkUrl : String → String) :
    List (String × String) → Option (List (String × String))
  | [] => some []
  | pi :: rest =>
    if dl (mkUrl pi.2) "" = "" then none
    else
      match fetchAll dl mkUrl rest with
      | none => none
      | some m => some ((pi.1, dl (mkUrl pi.2) "") :: m)

/-- The platform-specific download attempt in the extension loop of `Clone`
(line 155-156): backup asset endpoint, platform-qualified filename. -/
def extSpecificResult (dl : String → String → String) (publisher package version id : String) : String :=
  dl (ExtensionURL publisher package version (some id) true)
     (ExtensionFilename publisher package version (some id))

/-- The platform-agnostic download attempt in the extension loop of `Clone`
(lines 164-165). -/
def extGenericResult (dl : String → String → String) (publisher package version : String) : String :=
  dl (ExtensionURL publisher package version none true)
     (ExtensionFilename publisher package version none)

/-- The per-platform download results of `Clone`'s extension loop, in the
order of the `extension_id` table: a platform whose download failed carries the
initial `""`. -/
def extResults (dl : String → String → String) (publisher package version : String) :
    List (String × String) :=
  extension_id.map (fun pi => (pi.1, extSpecificResult dl publisher package version pi.2))

/-- The per-extension body of `Clone`'s extension loop (lines 148-170): try
every supported platform's specific package; platforms whose download failed
keep the initial `""`.  If all specific attempts succeeded, `Generic` is left
`""`; otherwise the platform-agnostic package is fetched and recorded under
`Generic`, and if that also fails the capture aborts (`none`). -/
def fetchExtensionEntry (dl : String → String → String) (publisher package version : String) :
    Option (List (String × String)) :=
  if ∀ r ∈ extResults dl publisher package version, r.2 ≠ "" then
    some (extResults dl publisher package version ++ [("Generic", "")])
  else if extGenericResult dl publisher package version = "" then
    none
  else
    some (extResults dl publisher package version ++
          [("Generic", extGenericResult dl publisher package version)])

/-- The extension loop of `Clone` (lines 144-170) over the installed extension
tokens.  A malformed token raises in `ParseExtensionString` (aborting the
capture before any manifest is written), and any entry-level failure aborts. -/
def fetchExtensions (dl : String → String → String) :
    List String → Option (List (String × List (String × String)))
  | [] => some []
  | ext_str :: rest =>
    match ParseExtensionString ext_str with
    | none => none
    | some (publisher, package, version) =>
      match fetchExtensionEntry dl publisher package version with
      | none => none
      | some entry =>
        match fetchExtensions dl rest with
        | none => none
        | some m => some ((ext_str, entry) :: m)

/-- The manifest of `vsclone.py` (`manifest.json`): platform-keyed maps are
association lists, the empty string marks an artifact that was not obtained. -/
structure Manifest where
  version : String
  commit_id : String
  installer : List (String × String)
  server : List (String × String)
  extensions : List (String × List (String × String))
deriving DecidableEq

/-- `Clone` of `vsclone.py` as a function of its oracles: `dl` is the download
routine, `version`/`commit_id` the local editor's identity, `ext_strs` the
installed extension tokens.  `none` means the run returned `False` (or raised)
before the manifest write at lines 172-174; `some m` means the manifest `m` was
written to `manifest.json` and the run returned `True`.  `Clone` first changes
into the target directory, so all recorded paths are resolved against the
manifest's own directory. -/
def Clone (dl : String → String → String) (version commit_id : String)
    (ext_strs : List String) : Option Manifest :=
  match fetchAll dl (fun id => InstallerURL version id) installer_id with
  | none => none
  | some inst =>
    match fetchAll dl (fun id => ServerURL commit_id id) server_id with
    | none => none
    | some srv =>
      match fetchExtensions dl ext_strs with
      | none => none
      | some exts => some ⟨version, commit_id, inst, srv, exts⟩

/-- Observable side effects of `Install`, in program order: the native editor
install, the two `shutil.rmtree` calls, the batch `--install-extension`
invocation, the server archive extraction and the two `copytree` calls. -/
inductive Effect where
  | runNativeInstall (path : String)
  | removeTree (dir : String)
  | batchInstallExtensions (paths : List String)
  | unpackArchive (archive dest : String)
  | copyTree (src dst : String)
deriving DecidableEq

/-- Failure modes of `Install`: `keyError` models a Python `KeyError` raised by
a dict lookup (an uncaught exception), the others model the `return False`
paths. -/
inductive InstallError where
  | keyError (key : String)
  | installerFailed
  | noCompatibleArtifact (ext_str : String)
  | extensionInstallFailed
  | unsupportedPlatform (sys : String)
deriving DecidableEq

/-- The extension-resolution loop of `Install` (lines 206-217): for each entry
look up the running platform's path then the `Generic` path (both lookups are
evaluated, a missing key raising `KeyError`), collect the platform path when
truthy, else the generic path when truthy, else fail with the spec's
`NoCompatibleArtifact`. -/
def resolveExtensions (sys : String) :
    List (String × List (String × String)) → Except InstallError (List String)
  | [] => Except.ok []
  | (ext_str, entry) :: rest =>
    match List.lookup sys entry with
    | none => Except.error (InstallError.keyError sys)
    | some platform_vsix =>
      match List.lookup "Generic" entry with
      | none => Except.error (InstallError.keyError "Generic")
      | some generic_vsix =>
        if platform_vsix ≠ "" then
          (resolveExtensions sys rest).map (fun l => platform_vsix :: l)
        else if generic_vsix ≠ "" then
          (resolveExtensions sys rest).map (fun l => generic_vsix :: l)
        else
          Except.error (InstallError.noCompatibleArtifact ext_str)

/-- Python `archive.split(".")[0]`, the assumed top-level directory name inside
the server archive (line 245). -/
def archiveStem (archive : String) : String :=
  ⟨(splitOnChar '.' archive.data).headD []⟩

/-- The tail of `Install` after a successful editor install (lines 206-249):
resolve the extension set, wipe the local extension directory and the whole
server directory, batch-install the extensions, then extract the server archive
into the commit-namespaced directory and copy the local extensions over.
`extExit` is the exit code of the batch extension-install command. -/
def InstallRest (sys : String) (extExit : List String → Int) (m : Manifest)
    (installer : String) : List Effect × Option InstallError :=
  match resolveExtensions sys m.extensions with
  | Except.error e => ([Effect.runNativeInstall installer], some e)
  | Except.ok to_install =>
    let pre := [Effect.runNativeInstall installer,
                Effect.removeTree "~/.vscode/extensions",
                Effect.removeTree "~/.vscode-server",
                Effect.batchInstallExtensions to_install]
    if extExit to_install ≠ 0 then
      (pre, some InstallError.extensionInstallFailed)
    else
      match List.lookup sys m.server with
      | none => (pre, some (InstallError.keyError sys))
      | some archive =>
        (pre ++ [Effect.unpackArchive archive "TMPDIR",
                 Effect.copyTree ("TMPDIR/" ++ archiveStem archive)
                                 ("~/.vscode-server/bin/" ++ m.commit_id),
                 Effect.copyTree "~/.vscode/extensions" "~/.vscode-server/extensions"],
         none)

/-- `Install` of `vsclone.py` as a function of the running platform `sys`
(`platform.system()`), the native-installer exit code oracle `instExit`, the
batch extension-install exit code oracle `extExit`, and the parsed manifest.
Returns the list of performed side effects in order, together with `none` on
success (`return True`) or the failure that ended the run.  Line 197 looks up
`manifest["installer"][platform.system()]` before any platform check, so a
platform missing from the installer map raises `KeyError` with no effect
performed. -/
def Install (sys : String) (instExit : String → Int) (extExit : List String → Int)
    (m : Manifest) : List Effect × Option InstallError :=
  match List.lookup sys m.installer with
  | none => ([], some (InstallError.keyError sys))
  | some installer =>
    if sys = "Linux" then
      if instExit installer ≠ 0 then
        ([Effect.runNativeInstall installer], some InstallError.installerFailed)
      else InstallRest sys extExit m installer
    else if sys = "Windows" then
      if instExit installer ≠ 0 then
        ([Effect.runNativeInstall installer], some InstallError.installerFailed)
      else InstallRest sys extExit m installer
    else
      ([], some (InstallError.unsupportedPlatform sys))

/-- A POSIX-absolute path: one that begins with a slash.  Recorded paths are
"relative to the manifest's directory" exactly when they are not of this form,
since `Clone` changes into that directory before downloading. -/
def startsSlash (s : String) : Bool := s.data.head? == some '/'

/-! ## Basic lemmas about the embedding -/

theorem data_append (a b : String) : (a ++ b).data = a.data ++ b.data := rfl

theorem splitOnChar_ne_nil (c : Char) (l : List Char) : splitOnChar c l ≠ [] := by
  induction l with
  | nil => simp [splitOnChar]
  | cons x xs ih =>
    unfold splitOnChar
    by_cases h : x = c
    · simp [h]
    · rw [if_neg h]
      cases hs : splitOnChar c xs <;> simp

theorem length_splitOnChar (c : Char) (l : List Char) :
    (splitOnChar c l).length = l.count c + 1 := by
  induction l with
  | nil => simp [splitOnChar]
  | cons x xs ih =>
    unfold splitOnChar
    by_cases h : x = c
    · subst h
      rw [if_pos rfl]
      simp [List.count_cons]
      omega
    · rw [if_neg h]
      cases hs : splitOnChar c xs with
      | nil => exact absurd hs (splitOnChar_ne_nil c xs)
      | cons y ys =>
        rw [hs] at ih
        simp only [List.length_cons] at ih ⊢
        simp [List.count_cons, h]
        omega

theorem head_splitOnChar (c : Char) (l : List Char) :
    ∃ t, splitOnChar c l = l.takeWhile (fun x => x != c) :: t := by
  induction l with
  | nil => exact ⟨[], by simp [splitOnChar]⟩
  | cons x xs ih =>
    unfold splitOnChar
    by_cases h : x = c
    · rw [if_pos h]
      exact ⟨splitOnChar c xs, by simp [List.takeWhile_cons, h]⟩
    · rw [if_neg h]
      obtain ⟨t, ht⟩ := ih
      rw [ht]
      exact ⟨t, by simp [List.takeWhile_cons, h]⟩

theorem exactlyTwo_none {α : Type} (l : List α) (h : l.length ≠ 2) : exactlyTwo l = none := by
  match l with
  | [] => rfl
  | [a] => rfl
  | [a, b] => simp at h
  | a :: b :: c :: r => rfl

theorem exactlyTwo_some {α : Type} {l : List α} {a b : α} (h : exactlyTwo l = some (a, b)) :
    l = [a, b] := by
  match l with
  | [] => simp [exactlyTwo] at h
  | [x] => simp [exactlyTwo] at h
  | [x, y] => simp only [exactlyTwo, Option.some.injEq, Prod.mk.injEq] at h; simp [h.1, h.2]
  | x :: y :: z :: r => simp [exactlyTwo] at h

theorem takeWhile_head? {α : Type} {p : α → Bool} {l : List α} {c : α}
    (h : (l.takeWhile p).head? = some c) : l.head? = some c := by
  cases l with
  | nil => simp [List.takeWhile] at h
  | cons a as =>
    rw [List.takeWhile_cons] at h
    by_cases hp : p a
    · rw [if_pos hp] at h
      simpa using h
    · rw [if_neg hp] at h
      simp at h

/-! ## Claim theorems -/

/-- Claim C10: for every publisher, package and version, calling `ExtensionURL`
or `ExtensionFilename` with the empty-string platform identifier produces
exactly the same result as calling it with the identifier absent — the empty
string is falsy in Python, so both select the universal (platform-agnostic)
URL and filename forms. -/
theorem c10_empty_platform_id :
    ∀ (publisher package version : String) (backup_api : Bool),
      ExtensionURL publisher package version (some "") backup_api =
        ExtensionURL publisher package version none backup_api ∧
      ExtensionFilename publisher package version (some "") =
        ExtensionFilename publisher package version none := by
  intro publisher package version backup_api
  exact ⟨rfl, rfl⟩

/-- Claim C4: the extension descriptor parser maps `"pub.pkg@1.2.3"` to
`("pub", "pkg", "1.2.3")`, and fails (the `ValueError` of tuple unpacking,
the spec's `MalformedToken`) on every token whose `'@'` separator is missing or
whose prefix before the first `'@'` does not contain exactly one `'.'`. -/
theorem c4_descriptor_roundtrip :
    ParseExtensionString "pub.pkg@1.2.3" = some ("pub", "pkg", "1.2.3") ∧
    ∀ s : String,
      (s.data.count '@' = 0 ∨ (s.data.takeWhile (fun x => x != '@')).count '.' ≠ 1) →
      ParseExtensionString s = none := by
  constructor
  · decide
  · intro s h
    unfold ParseExtensionString
    split
    · rfl
    · rename_i uid ver heq1
      split
      · rfl
      · rename_i pub pkg heq2
        exfalso
        have h1 : splitOnChar '@' s.data = [uid, ver] := exactlyTwo_some heq1
        have h2 : splitOnChar '.' uid = [pub, pkg] := exactlyTwo_some heq2
        have hc1 : s.data.count '@' = 1 := by
          have hl := length_splitOnChar '@' s.data
          rw [h1] at hl
          simp at hl
          omega
        have huid : uid = s.data.takeWhile (fun x => x != '@') := by
          obtain ⟨t, ht⟩ := head_splitOnChar '@' s.data
          rw [h1] at ht
          injection ht
        have hc2 : (s.data.takeWhile (fun x => x != '@')).count '.' = 1 := by
          have hl := length_splitOnChar '.' uid
          rw [h2] at hl
          simp at hl
          rw [huid] at hl
          omega
        rcases h with h0 | hd
        · omega
        · exact hd hc2

/-- Witness for C4: `"pub@1.2.3"` (missing package separator) is rejected. -/
theorem c4_descriptor_roundtrip_witness : ParseExtensionString "pub@1.2.3" = none :=
  c4_descriptor_roundtrip.2 "pub@1.2.3" (Or.inr (by decide))

/-! ## Infix and append helpers for URL and filename reasoning -/

theorem infix_mid (x s t : List Char) : x <:+: s ++ (x ++ t) :=
  ⟨s, t, by simp [List.append_assoc]⟩

theorem infix_grow {x A : List Char} (h : x <:+: A) (q : List Char) : x <:+: A ++ q := by
  obtain ⟨s, t, hst⟩ := h
  exact ⟨s, t ++ q, by rw [← hst]; simp [List.append_assoc]⟩

/-- `ExtensionURL` splits into an endpoint-specific body followed by the
(possibly empty) `targetPlatform` query string. -/
theorem ExtensionURL_eq (publisher package version : String) (platform_id : Option String)
    (backup_api : Bool) :
    ExtensionURL publisher package version platform_id backup_api =
      (if backup_api then
        "https://" ++ publisher ++ ".gallery.vsassets.io/_apis/public/gallery/publisher/" ++
          publisher ++ "/extension/" ++ package ++ "/" ++ version ++
          "/assetbyname/Microsoft.VisualStudio.Services.VSIXPackage"
      else
        "https://marketplace.visualstudio.com/_apis/public/gallery/publishers/" ++ publisher ++
          "/vsextensions/" ++ package ++ "/" ++ version ++ "/vspackage") ++
      (if platform_id.getD "" ≠ "" then "?targetPlatform=" ++ platform_id.getD "" else "") := by
  cases backup_api <;> rfl

/-- Claim C6 is refuted: `ExtensionFilename` is not injective over
(publisher, package, version, platform-id-or-absent).  A `'@'` inside the
version reproduces the platform separator: `("p", "k", "1@a", absent)` and
`("p", "k", "1", platform "a")` differ in two components yet collide on
`"p.k-1@a.vsix"`. -/
theorem c6_filename_counterexample :
    ExtensionFilename "p" "k" "1@a" none = ExtensionFilename "p" "k" "1" (some "a") ∧
    (("1@a" : String), (none : Option String)) ≠ ("1", some "a") := by
  decide

/-- Claim C6 (amended): filename construction is deterministic (a pure
function of its arguments), and for a fixed publisher, package and version it
is injective in the platform id up to Python truthiness: two non-empty platform
ids that produce the same filename are equal, and a non-empty platform id never
collides with the absent/empty form.  Joint injectivity over all four
components fails (see the counterexample). -/
theorem c6_filename_injective_amended :
    ∀ (publisher package version i₁ : String),
      (∀ i₂ : String, i₁ ≠ "" → i₂ ≠ "" →
        ExtensionFilename publisher package version (some i₁) =
          ExtensionFilename publisher package version (some i₂) → i₁ = i₂) ∧
      (i₁ ≠ "" →
        ExtensionFilename publisher package version (some i₁) ≠
          ExtensionFilename publisher package version none) := by
  intro p k v i₁
  constructor
  · intro i₂ h₁ h₂ heq
    unfold ExtensionFilename at heq
    rw [if_pos (show (some i₁).getD "" ≠ "" from h₁),
        if_pos (show (some i₂).getD "" ≠ "" from h₂)] at heq
    have hd := congrArg String.data heq
    simp only [data_append, Option.getD_some, List.append_assoc] at hd
    replace hd := List.append_cancel_left hd
    replace hd := List.append_cancel_left hd
    replace hd := List.append_cancel_left hd
    replace hd := List.append_cancel_left hd
    replace hd := List.append_cancel_left hd
    replace hd := List.append_cancel_left hd
    replace hd := List.append_cancel_right hd
    exact congrArg String.mk hd
  · intro h₁ heq
    unfold ExtensionFilename at heq
    rw [if_pos (show (some i₁).getD "" ≠ "" from h₁),
        if_neg (show ¬((none : Option String).getD "" ≠ "") from by simp)] at heq
    have hd := congrArg String.data heq
    simp only [data_append, Option.getD_some, List.append_assoc] at hd
    replace hd := List.append_cancel_left hd
    replace hd := List.append_cancel_left hd
    replace hd := List.append_cancel_left hd
    replace hd := List.append_cancel_left hd
    replace hd := List.append_cancel_left hd
    have hlen := congrArg List.length hd
    simp only [List.length_append, List.length_cons, List.length_nil] at hlen
    omega

set_option maxRecDepth 4096 in
/-- Witness for C6 (amended): distinct filenames distinguish the two concrete
platform ids, so applying platform-id injectivity at `"a" = "a"` goes through. -/
theorem c6_filename_injective_amended_witness : ("a" : String) = "a" :=
  (c6_filename_injective_amended "p" "k" "1" "a").1 "a" (by decide) (by decide) rfl

/-- Claim C5 is refuted on the extension class: the URL built for an extension
during a capture at commit `abc123` does not embed the commit id at all — it
embeds the extension's own version — while the server URL does embed the
commit id. -/
theorem c5_url_counterexample :
    ¬ ("abc123".data <:+: (ExtensionURL "ms" "python" "2024.1.0" (some "linux-x64") true).data) ∧
    ("2024.1.0".data <:+: (ExtensionURL "ms" "python" "2024.1.0" (some "linux-x64") true).data) ∧
    ("abc123".data <:+: (ServerURL "abc123" "linux-x64").data) := by
  set_option maxRecDepth 100000 in decide

/-- Claim C5 (amended): URL construction embeds the captured version for the
installer class, the commit id for the server class, and the extension's own
publisher, package and version for the extension class, together with the
resolved platform identifier (for extensions as a `targetPlatform` query
parameter, present exactly when a non-empty platform id is supplied), into a
fixed URL template specific to each class. -/
theorem c5_url_embedding_amended :
    ∀ (version commit_id publisher package extver platform_id : String) (backup_api : Bool),
      version.data <:+: (InstallerURL version platform_id).data ∧
      platform_id.data <:+: (InstallerURL version platform_id).data ∧
      commit_id.data <:+: (ServerURL commit_id platform_id).data ∧
      platform_id.data <:+: (ServerURL commit_id platform_id).data ∧
      publisher.data <:+: (ExtensionURL publisher package extver (some platform_id) backup_api).data ∧
      package.data <:+: (ExtensionURL publisher package extver (some platform_id) backup_api).data ∧
      extver.data <:+: (ExtensionURL publisher package extver (some platform_id) backup_api).data ∧
      (platform_id ≠ "" →
        platform_id.data <:+: (ExtensionURL publisher package extver (some platform_id) backup_api).data) := by
  intro V C P K E I b
  refine ⟨?_, ?_, ?_, ?_, ?_, ?_, ?_, ?_⟩
  · exact ⟨"https://update.code.visualstudio.com/".data, ("/" ++ I ++ "/stable").data,
      by simp [InstallerURL, data_append, List.append_assoc]⟩
  · exact ⟨("https://update.code.visualstudio.com/" ++ V ++ "/").data, "/stable".data,
      by simp [InstallerURL, data_append, List.append_assoc]⟩
  · exact ⟨"https://update.code.visualstudio.com/commit:".data, ("/server-" ++ I ++ "/stable").data,
      by simp [ServerURL, data_append, List.append_assoc]⟩
  · exact ⟨("https://update.code.visualstudio.com/commit:" ++ C ++ "/server-").data, "/stable".data,
      by simp [ServerURL, data_append, List.append_assoc]⟩
  · rw [ExtensionURL_eq, data_append]
    refine infix_grow ?_ _
    cases b
    · exact ⟨"https://marketplace.visualstudio.com/_apis/public/gallery/publishers/".data,
        ("/vsextensions/" ++ K ++ "/" ++ E ++ "/vspackage").data,
        by simp [data_append, List.append_assoc]⟩
    · exact ⟨"https://".data,
        (".gallery.vsassets.io/_apis/public/gallery/publisher/" ++ P ++ "/extension/" ++ K ++
          "/" ++ E ++ "/assetbyname/Microsoft.VisualStudio.Services.VSIXPackage").data,
        by simp [data_append, List.append_assoc]⟩
  · rw [ExtensionURL_eq, data_append]
    refine infix_grow ?_ _
    cases b
    · exact ⟨("https://marketplace.visualstudio.com/_apis/public/gallery/publishers/" ++ P ++
          "/vsextensions/").data, ("/" ++ E ++ "/vspackage").data,
        by simp [data_append, List.append_assoc]⟩
    · exact ⟨("https://" ++ P ++ ".gallery.vsassets.io/_apis/public/gallery/publisher/" ++ P ++
          "/extension/").data,
        ("/" ++ E ++ "/assetbyname/Microsoft.VisualStudio.Services.VSIXPackage").data,
        by simp [data_append, List.append_assoc]⟩
  · rw [ExtensionURL_eq, data_append]
    refine infix_grow ?_ _
    cases b
    · exact ⟨("https://marketplace.visualstudio.com/_apis/public/gallery/publishers/" ++ P ++
          "/vsextensions/" ++ K ++ "/").data, "/vspackage".data,
        by simp [data_append, List.append_assoc]⟩
    · exact ⟨("https://" ++ P ++ ".gallery.vsassets.io/_apis/public/gallery/publisher/" ++ P ++
          "/extension/" ++ K ++ "/").data,
        "/assetbyname/Microsoft.VisualStudio.Services.VSIXPackage".data,
        by simp [data_append, List.append_assoc]⟩
  · intro hI
    rw [ExtensionURL_eq]
    rw [if_pos (show (some I).getD "" ≠ "" from hI)]
    refine ⟨((if b then
        "https://" ++ P ++ ".gallery.vsassets.io/_apis/public/gallery/publisher/" ++ P ++
          "/extension/" ++ K ++ "/" ++ E ++
          "/assetbyname/Microsoft.VisualStudio.Services.VSIXPackage"
      else
        "https://marketplace.visualstudio.com/_apis/public/gallery/publishers/" ++ P ++
          "/vsextensions/" ++ K ++ "/" ++ E ++ "/vspackage") ++ "?targetPlatform=").data, [], ?_⟩
    simp [data_append, Option.getD_some, List.append_assoc]

/-- Witness for C5 (amended): the platform id appears in the concrete backup
extension URL. -/
theorem c5_url_embedding_amended_witness :
    "linux-x64".data <:+: (ExtensionURL "ms" "python" "1.0" (some "linux-x64") true).data :=
  (c5_url_embedding_amended "1.85.0" "abc123" "ms" "python" "1.0" "linux-x64" true).2.2.2.2.2.2.2
    (by decide)

/-! ## Lemmas about the capture phase -/

theorem extResults_eq (dl : String → String → String) (publisher package version : String) :
    extResults dl publisher package version =
      [("Linux", extSpecificResult dl publisher package version "linux-x64"),
       ("Windows", extSpecificResult dl publisher package version "win32-x64")] := rfl

theorem extResults_not_all (dl : String → String → String) (publisher package version : String)
    (hfail : extSpecificResult dl publisher package version "linux-x64" = "" ∨
             extSpecificResult dl publisher package version "win32-x64" = "") :
    ¬ ∀ r ∈ extResults dl publisher package version, r.2 ≠ "" := by
  intro hall
  rcases hfail with h | h
  · exact hall ("Linux", extSpecificResult dl publisher package version "linux-x64")
      (by rw [extResults_eq]; simp) h
  · exact hall ("Windows", extSpecificResult dl publisher package version "win32-x64")
      (by rw [extResults_eq]; simp) h

theorem fetchExtensionEntry_all (dl : String → String → String)
    (publisher package version : String)
    (hL : extSpecificResult dl publisher package version "linux-x64" ≠ "")
    (hW : extSpecificResult dl publisher package version "win32-x64" ≠ "") :
    fetchExtensionEntry dl publisher package version =
      some [("Linux", extSpecificResult dl publisher package version "linux-x64"),
            ("Windows", extSpecificResult dl publisher package version "win32-x64"),
            ("Generic", "")] := by
  have hc : ∀ r ∈ extResults dl publisher package version, r.2 ≠ "" := by
    intro r hr
    rw [extResults_eq] at hr
    simp only [List.mem_cons, List.not_mem_nil, or_false] at hr
    rcases hr with rfl | rfl
    · exact hL
    · exact hW
  unfold fetchExtensionEntry
  rw [if_pos hc, extResults_eq]
  rfl

theorem fetchExtensionEntry_generic (dl : String → String → String)
    (publisher package version : String)
    (hfail : extSpecificResult dl publisher package version "linux-x64" = "" ∨
             extSpecificResult dl publisher package version "win32-x64" = "")
    (hg : extGenericResult dl publisher package version ≠ "") :
    fetchExtensionEntry dl publisher package version =
      some [("Linux", extSpecificResult dl publisher package version "linux-x64"),
            ("Windows", extSpecificResult dl publisher package version "win32-x64"),
            ("Generic", extGenericResult dl publisher package version)] := by
  unfold fetchExtensionEntry
  rw [if_neg (extResults_not_all dl publisher package version hfail), if_neg hg, extResults_eq]
  rfl

theorem fetchExtensionEntry_none (dl : String → String → String)
    (publisher package version : String)
    (hfail : extSpecificResult dl publisher package version "linux-x64" = "" ∨
             extSpecificResult dl publisher package version "win32-x64" = "")
    (hg : extGenericResult dl publisher package version = "") :
    fetchExtensionEntry dl publisher package version = none := by
  unfold fetchExtensionEntry
  rw [if_neg (extResults_not_all dl publisher package version hfail), if_pos hg]

theorem fetchExtensionEntry_some_inv (dl : String → String → String)
    (publisher package version : String) (entry : List (String × String))
    (h : fetchExtensionEntry dl publisher package version = some entry) :
    ∃ kv ∈ entry, kv.2 ≠ "" := by
  unfold fetchExtensionEntry at h
  split_ifs at h with h1 h2
  · injection h with h
    refine ⟨("Linux", extSpecificResult dl publisher package version "linux-x64"), ?_, ?_⟩
    · rw [← h, extResults_eq]
      simp
    · exact h1 ("Linux", extSpecificResult dl publisher package version "linux-x64")
        (by rw [extResults_eq]; simp)
  · injection h with h
    refine ⟨("Generic", extGenericResult dl publisher package version), ?_, h2⟩
    rw [← h]
    simp

theorem fetchAll_none (dl : String → String → String) (mkUrl : String → String)
    (pairs : List (String × String))
    (hex : ∃ pi ∈ pairs, dl (mkUrl pi.2) "" = "") :
    fetchAll dl mkUrl pairs = none := by
  induction pairs with
  | nil =>
    obtain ⟨pi, hm, _⟩ := hex
    simp at hm
  | cons p rest ih =>
    obtain ⟨pi, hm, hf⟩ := hex
    unfold fetchAll
    rcases List.mem_cons.mp hm with rfl | hm2
    · rw [if_pos hf]
    · by_cases hp : dl (mkUrl p.2) "" = ""
      · rw [if_pos hp]
      · rw [if_neg hp, ih ⟨pi, hm2, hf⟩]

theorem fetchAll_some (dl : String → String → String) (mkUrl : String → String) :
    ∀ (pairs : List (String × String)) (l : List (String × String)),
      fetchAll dl mkUrl pairs = some l →
      l = pairs.map (fun pi => (pi.1, dl (mkUrl pi.2) "")) ∧
      ∀ pi ∈ pairs, dl (mkUrl pi.2) "" ≠ "" := by
  intro pairs
  induction pairs with
  | nil =>
    intro l h
    unfold fetchAll at h
    injection h with h
    refine ⟨h.symm, ?_⟩
    intro pi hm
    simp at hm
  | cons p rest ih =>
    intro l h
    unfold fetchAll at h
    by_cases hp : dl (mkUrl p.2) "" = ""
    · rw [if_pos hp] at h
      exact absurd h (by simp)
    · rw [if_neg hp] at h
      cases hr : fetchAll dl mkUrl rest with
      | none => rw [hr] at h; exact absurd h (by simp)
      | some m =>
        rw [hr] at h
        injection h with h
        obtain ⟨hm, hall⟩ := ih m hr
        constructor
        · rw [← h, hm]
          simp
        · intro pi hmem
          rcases List.mem_cons.mp hmem with rfl | h2
          · exact hp
          · exact hall pi h2

theorem lookup_none_of_keys {β : Type} (k : String) (l : List (String × β))
    (h : ∀ kv ∈ l, kv.1 ≠ k) : List.lookup k l = none := by
  induction l with
  | nil => rfl
  | cons p rest ih =>
    obtain ⟨a, b⟩ := p
    have hp : a ≠ k := h (a, b) (List.mem_cons_self _ _)
    have hb : (k == a) = false := beq_eq_false_iff_ne.mpr (Ne.symm hp)
    simp only [List.lookup, hb]
    exact ih (fun kv hm => h kv (List.mem_cons_of_mem _ hm))

theorem fetchExtensions_none (dl : String → String → String) (ext_strs : List String)
    (hex : ∃ tok ∈ ext_strs, ∃ publisher package version : String,
      ParseExtensionString tok = some (publisher, package, version) ∧
      (extSpecificResult dl publisher package version "linux-x64" = "" ∨
       extSpecificResult dl publisher package version "win32-x64" = "") ∧
      extGenericResult dl publisher package version = "") :
    fetchExtensions dl ext_strs = none := by
  induction ext_strs with
  | nil =>
    obtain ⟨tok, hm, _⟩ := hex
    simp at hm
  | cons t rest ih =>
    obtain ⟨tok, hm, publisher, package, version, hparse, hfail, hg⟩ := hex
    unfold fetchExtensions
    rcases List.mem_cons.mp hm with rfl | hm2
    · simp only [hparse, fetchExtensionEntry_none dl publisher package version hfail hg]
    · cases hp : ParseExtensionString t with
      | none => simp only [hp]
      | some trip =>
        obtain ⟨a, b, c⟩ := trip
        cases he : fetchExtensionEntry dl a b c with
        | none => simp only [hp, he]
        | some entry =>
          simp only [hp, he, ih ⟨tok, hm2, publisher, package, version, hparse, hfail, hg⟩]

theorem fetchExtensions_some (dl : String → String → String) :
    ∀ (ext_strs : List String) (l : List (String × List (String × String))),
      fetchExtensions dl ext_strs = some l →
      ∀ te ∈ l, te.1 ∈ ext_strs ∧ ∃ publisher package version : String,
        ParseExtensionString te.1 = some (publisher, package, version) ∧
        fetchExtensionEntry dl publisher package version = some te.2 := by
  intro ext_strs
  induction ext_strs with
  | nil =>
    intro l h te hte
    unfold fetchExtensions at h
    injection h with h
    rw [← h] at hte
    simp at hte
  | cons t rest ih =>
    intro l h te hte
    unfold fetchExtensions at h
    cases hp : ParseExtensionString t with
    | none => rw [hp] at h; exact absurd h (by simp)
    | some trip =>
      obtain ⟨publisher, package, version⟩ := trip
      rw [hp] at h
      simp only [] at h
      cases he : fetchExtensionEntry dl publisher package version with
      | none => rw [he] at h; exact absurd h (by simp)
      | some entry =>
        rw [he] at h
        cases hr : fetchExtensions dl rest with
        | none => rw [hr] at h; exact absurd h (by simp)
        | some m =>
          rw [hr] at h
          injection h with h
          rw [← h] at hte
          rcases List.mem_cons.mp hte with rfl | hte2
          · exact ⟨List.mem_cons_self _ _, publisher, package, version, hp, he⟩
          · obtain ⟨hmem, rest_ex⟩ := ih m hr te hte2
            exact ⟨List.mem_cons_of_mem _ hmem, rest_ex⟩

theorem Clone_some (dl : String → String → String) (version commit_id : String)
    (ext_strs : List String) (m : Manifest)
    (h : Clone dl version commit_id ext_strs = some m) :
    fetchAll dl (fun id => InstallerURL version id) installer_id = some m.installer ∧
    fetchAll dl (fun id => ServerURL commit_id id) server_id = some m.server ∧
    fetchExtensions dl ext_strs = some m.extensions := by
  unfold Clone at h
  split at h
  · exact absurd h (by simp)
  · rename_i inst h1
    split at h
    · exact absurd h (by simp)
    · rename_i srv h2
      split at h
      · exact absurd h (by simp)
      · rename_i exts h3
        injection h with h
        rw [← h]
        exact ⟨h1, h2, h3⟩

/-- Claim C1: during capture, for each installed extension the builder first
attempts every supported platform's specific package.  If both specific
downloads succeed the `Generic` slot is left empty; if any fails (so the
platform-agnostic fetch succeeds, else capture aborts) the entry keeps the
succeeding platform's returned path, the empty string for the failing
platform, and the platform-agnostic path under `Generic`. -/
theorem c1_extension_fallback :
    ∀ (dl : String → String → String) (publisher package version : String),
      (extSpecificResult dl publisher package version "linux-x64" ≠ "" →
       extSpecificResult dl publisher package version "win32-x64" ≠ "" →
       fetchExtensionEntry dl publisher package version =
         some [("Linux", extSpecificResult dl publisher package version "linux-x64"),
               ("Windows", extSpecificResult dl publisher package version "win32-x64"),
               ("Generic", "")]) ∧
      ((extSpecificResult dl publisher package version "linux-x64" = "" ∨
        extSpecificResult dl publisher package version "win32-x64" = "") →
       extGenericResult dl publisher package version ≠ "" →
       fetchExtensionEntry dl publisher package version =
         some [("Linux", extSpecificResult dl publisher package version "linux-x64"),
               ("Windows", extSpecificResult dl publisher package version "win32-x64"),
               ("Generic", extGenericResult dl publisher package version)]) :=
  fun dl publisher package version =>
    ⟨fetchExtensionEntry_all dl publisher package version,
     fetchExtensionEntry_generic dl publisher package version⟩

/-- A download oracle that fails exactly on the Windows-specific package of
`pub.pkg@1.0` and otherwise returns the requested filename. -/
def dlWinFail : String → String → String := fun _ fn =>
  if fn = ExtensionFilename "pub" "pkg" "1.0" (some "win32-x64") then "" else fn

set_option maxRecDepth 8192 in
/-- Witness for C1: with `dlWinFail` the Linux download succeeds, the Windows
one fails, and the manifest entry records the Linux path, an empty Windows
path, and the generic fallback. -/
theorem c1_extension_fallback_witness :
    fetchExtensionEntry dlWinFail "pub" "pkg" "1.0" =
      some [("Linux", "pub.pkg-1.0@linux-x64.vsix"), ("Windows", ""),
            ("Generic", "pub.pkg-1.0.vsix")] :=
  (c1_extension_fallback dlWinFail "pub" "pkg" "1.0").2 (Or.inr (by decide)) (by decide)

/-- Claim C2: capture is atomic with respect to the manifest — a failed
installer download, server download, or generic extension download after a
platform-specific failure makes `Clone` abort with no manifest (`none`), and
whenever a manifest is produced every installer and server artifact was
obtained (non-empty recorded path). -/
theorem c2_capture_atomic :
    ∀ (dl : String → String → String) (version commit_id : String) (ext_strs : List String),
      ((∃ pi ∈ installer_id, dl (InstallerURL version pi.2) "" = "") →
        Clone dl version commit_id ext_strs = none) ∧
      ((∃ pi ∈ server_id, dl (ServerURL commit_id pi.2) "" = "") →
        Clone dl version commit_id ext_strs = none) ∧
      ((∃ tok ∈ ext_strs, ∃ publisher package extver : String,
          ParseExtensionString tok = some (publisher, package, extver) ∧
          (extSpecificResult dl publisher package extver "linux-x64" = "" ∨
           extSpecificResult dl publisher package extver "win32-x64" = "") ∧
          extGenericResult dl publisher package extver = "") →
        Clone dl version commit_id ext_strs = none) ∧
      (∀ m : Manifest, Clone dl version commit_id ext_strs = some m →
        (∀ kv ∈ m.installer, kv.2 ≠ "") ∧ (∀ kv ∈ m.server, kv.2 ≠ "")) := by
  intro dl version commit_id ext_strs
  refine ⟨?_, ?_, ?_, ?_⟩
  · intro hex
    unfold Clone
    rw [fetchAll_none dl (fun id => InstallerURL version id) installer_id hex]
  · intro hex
    unfold Clone
    simp only [fetchAll_none dl (fun id => ServerURL commit_id id) server_id hex]
    cases fetchAll dl (fun id => InstallerURL version id) installer_id <;> rfl
  · intro hex
    unfold Clone
    simp only [fetchExtensions_none dl ext_strs hex]
    cases fetchAll dl (fun id => InstallerURL version id) installer_id
    · rfl
    · cases fetchAll dl (fun id => ServerURL commit_id id) server_id <;> rfl
  · intro m h
    obtain ⟨h1, h2, _⟩ := Clone_some dl version commit_id ext_strs m h
    obtain ⟨hm1, hall1⟩ := fetchAll_some dl (fun id => InstallerURL version id) installer_id m.installer h1
    obtain ⟨hm2, hall2⟩ := fetchAll_some dl (fun id => ServerURL commit_id id) server_id m.server h2
    constructor
    · intro kv hkv
      rw [hm1] at hkv
      simp only [List.mem_map] at hkv
      obtain ⟨pi, hpi, rfl⟩ := hkv
      exact hall1 pi hpi
    · intro kv hkv
      rw [hm2] at hkv
      simp only [List.mem_map] at hkv
      obtain ⟨pi, hpi, rfl⟩ := hkv
      exact hall2 pi hpi

/-- A download oracle whose every request fails. -/
def dlFail : String → String → String := fun _ _ => ""

/-- Witness for C2: when the Linux installer download fails, the capture
aborts and no manifest is produced. -/
theorem c2_capture_atomic_witness : Clone dlFail "1.85.0" "abc123" [] = none :=
  (c2_capture_atomic dlFail "1.85.0" "abc123" []).1
    ⟨("Linux", "linux-deb-x64"), by decide, rfl⟩

/-- Claim C3: every manifest that `Clone` actually persists satisfies that
each extension entry has at least one non-empty recorded path; an all-empty
entry is never written — in that situation the per-extension fetch fails and
the capture is reported as a failure instead. -/
theorem c3_extension_entry_invariant :
    (∀ (dl : String → String → String) (version commit_id : String)
       (ext_strs : List String) (m : Manifest),
        Clone dl version commit_id ext_strs = some m →
        ∀ te ∈ m.extensions, ∃ kv ∈ te.2, kv.2 ≠ "") ∧
    (∀ (dl : String → String → String) (publisher package version : String),
        (extSpecificResult dl publisher package version "linux-x64" = "" ∨
         extSpecificResult dl publisher package version "win32-x64" = "") →
        extGenericResult dl publisher package version = "" →
        fetchExtensionEntry dl publisher package version = none) := by
  constructor
  · intro dl version commit_id ext_strs m h te hte
    obtain ⟨_, _, h3⟩ := Clone_some dl version commit_id ext_strs m h
    obtain ⟨_, publisher, package, extver, _, hentry⟩ :=
      fetchExtensions_some dl ext_strs m.extensions h3 te hte
    exact fetchExtensionEntry_some_inv dl publisher package extver te.2 hentry
  · exact fetchExtensionEntry_none

/-- Witness for C3: when both specific downloads and the generic download
fail, no entry is produced at all (the capture aborts). -/
theorem c3_extension_entry_invariant_witness :
    fetchExtensionEntry dlFail "pub" "pkg" "1.0" = none :=
  c3_extension_entry_invariant.2 dlFail "pub" "pkg" "1.0" (Or.inl rfl) rfl

/-! ## Lemmas about the apply phase -/

theorem resolveExtensions_error (sys : String) :
    ∀ exts : List (String × List (String × String)),
      (∀ te ∈ exts, (List.lookup sys te.2).isSome ∧ (List.lookup "Generic" te.2).isSome) →
      (∃ te ∈ exts, List.lookup sys te.2 = some "" ∧ List.lookup "Generic" te.2 = some "") →
      ∃ t, resolveExtensions sys exts = Except.error (InstallError.noCompatibleArtifact t) := by
  intro exts
  induction exts with
  | nil =>
    rintro _ ⟨te, hm, _⟩
    simp at hm
  | cons p rest ih =>
    rintro hkeys ⟨te, hm, hw1, hw2⟩
    obtain ⟨ext_str, entry⟩ := p
    obtain ⟨hks, hkg⟩ := hkeys (ext_str, entry) (List.mem_cons_self _ _)
    obtain ⟨pv, hpv⟩ := Option.isSome_iff_exists.mp hks
    obtain ⟨gv, hgv⟩ := Option.isSome_iff_exists.mp hkg
    unfold resolveExtensions
    simp only [hpv, hgv]
    rcases List.mem_cons.mp hm with heq | hm2
    · rw [heq] at hw1 hw2
      have hpe : pv = "" := by rw [hpv] at hw1; injection hw1
      have hge : gv = "" := by rw [hgv] at hw2; injection hw2
      rw [if_neg (fun h' => h' hpe), if_neg (fun h' => h' hge)]
      exact ⟨ext_str, rfl⟩
    · have hrest : ∀ te' ∈ rest, (List.lookup sys te'.2).isSome ∧
          (List.lookup "Generic" te'.2).isSome :=
        fun te' hm' => hkeys te' (List.mem_cons_of_mem _ hm')
      by_cases hpe : pv = ""
      · by_cases hge : gv = ""
        · rw [if_neg (fun h' => h' hpe), if_neg (fun h' => h' hge)]
          exact ⟨ext_str, rfl⟩
        · rw [if_neg (fun h' => h' hpe), if_pos hge]
          obtain ⟨t, ht⟩ := ih hrest ⟨te, hm2, hw1, hw2⟩
          rw [ht]
          exact ⟨t, rfl⟩
      · rw [if_pos hpe]
        obtain ⟨t, ht⟩ := ih hrest ⟨te, hm2, hw1, hw2⟩
        rw [ht]
        exact ⟨t, rfl⟩

/-- Claim C7: during apply, the resolution loop selects the running-platform
path when non-empty, else the `Generic` path when non-empty, and otherwise
fails with `NoCompatibleArtifact`; and an all-empty entry anywhere in the
manifest makes the whole apply abort right after the editor install, before
any directory wipe or any extension installation. -/
theorem c7_apply_extension_resolution :
    (∀ (sys ext_str : String) (entry : List (String × String))
       (rest : List (String × List (String × String))) (pv gv : String),
        List.lookup sys entry = some pv → List.lookup "Generic" entry = some gv →
        (pv ≠ "" → resolveExtensions sys ((ext_str, entry) :: rest) =
            (resolveExtensions sys rest).map (fun l => pv :: l)) ∧
        (pv = "" → gv ≠ "" → resolveExtensions sys ((ext_str, entry) :: rest) =
            (resolveExtensions sys rest).map (fun l => gv :: l)) ∧
        (pv = "" → gv = "" → resolveExtensions sys ((ext_str, entry) :: rest) =
            Except.error (InstallError.noCompatibleArtifact ext_str))) ∧
    (∀ (sys : String) (instExit : String → Int) (extExit : List String → Int)
       (m : Manifest) (ip : String),
        (sys = "Linux" ∨ sys = "Windows") →
        List.lookup sys m.installer = some ip →
        instExit ip = 0 →
        (∀ te ∈ m.extensions, (List.lookup sys te.2).isSome ∧
            (List.lookup "Generic" te.2).isSome) →
        (∃ te ∈ m.extensions, List.lookup sys te.2 = some "" ∧
            List.lookup "Generic" te.2 = some "") →
        ∃ t : String, Install sys instExit extExit m =
          ([Effect.runNativeInstall ip], some (InstallError.noCompatibleArtifact t))) := by
  constructor
  · intro sys ext_str entry rest pv gv hpv hgv
    refine ⟨?_, ?_, ?_⟩
    · intro hne
      conv_lhs => unfold resolveExtensions
      simp only [hpv, hgv]
      rw [if_pos hne]
    · intro hpe hgne
      conv_lhs => unfold resolveExtensions
      simp only [hpv, hgv]
      rw [if_neg (fun h' => h' hpe), if_pos hgne]
    · intro hpe hge
      conv_lhs => unfold resolveExtensions
      simp only [hpv, hgv]
      rw [if_neg (fun h' => h' hpe), if_neg (fun h' => h' hge)]
  · intro sys instExit extExit m ip hsys hip h0 hkeys hex
    obtain ⟨t, ht⟩ := resolveExtensions_error sys m.extensions hkeys hex
    refine ⟨t, ?_⟩
    rcases hsys with rfl | rfl
    · unfold Install
      split
      · rename_i hl
        rw [hip] at hl
        exact absurd hl (by simp)
      · rename_i ip' hl
        rw [hip] at hl
        injection hl with hl
        subst hl
        rw [if_pos rfl, if_neg (fun h' => h' h0)]
        unfold InstallRest
        simp only [ht]
    · unfold Install
      split
      · rename_i hl
        rw [hip] at hl
        exact absurd hl (by simp)
      · rename_i ip' hl
        rw [hip] at hl
        injection hl with hl
        subst hl
        rw [if_neg (show ("Windows" : String) ≠ "Linux" by decide), if_pos rfl,
            if_neg (fun h' => h' h0)]
        unfold InstallRest
        simp only [ht]

/-- An extension entry with every platform path and `Generic` empty. -/
def entryAllEmpty : List (String × String) := [("Linux", ""), ("Windows", ""), ("Generic", "")]

/-- Witness for C7: an all-empty entry makes the resolution loop fail with
`NoCompatibleArtifact` for that extension. -/
theorem c7_apply_extension_resolution_witness :
    resolveExtensions "Linux" [("t", entryAllEmpty)] =
      Except.error (InstallError.noCompatibleArtifact "t") :=
  ((c7_apply_extension_resolution.1 "Linux" "t" entryAllEmpty [] "" ""
      (by decide) (by decide)).2.2) rfl rfl

/-- Claim C8 (supporting theorem): applying any captured manifest on a
platform outside the supported set, such as `"Darwin"`, fails before any
destructive step — the effect trace is empty, so no directory is removed —
but it fails with an uncaught `KeyError` from `manifest["installer"]` (line
197 runs before the platform check), not with the `UnsupportedPlatform`
diagnostic; that diagnostic is reachable only when the installer map itself
contains the unsupported platform key, which no captured manifest does. -/
theorem c8_unsupported_platform :
    (∀ (dl : String → String → String) (version commit_id : String)
       (ext_strs : List String) (m : Manifest)
       (instExit : String → Int) (extExit : List String → Int),
        Clone dl version commit_id ext_strs = some m →
        Install "Darwin" instExit extExit m = ([], some (InstallError.keyError "Darwin"))) ∧
    (∀ (sys : String) (instExit : String → Int) (extExit : List String → Int)
       (m : Manifest) (tr : List Effect),
        Install sys instExit extExit m = (tr, some (InstallError.unsupportedPlatform sys)) →
        (List.lookup sys m.installer).isSome) := by
  constructor
  · intro dl version commit_id ext_strs m instExit extExit h
    obtain ⟨h1, _, _⟩ := Clone_some dl version commit_id ext_strs m h
    obtain ⟨hm1, _⟩ := fetchAll_some dl (fun id => InstallerURL version id) installer_id
      m.installer h1
    have hkeys : ∀ kv ∈ m.installer, kv.1 ≠ "Darwin" := by
      intro kv hkv
      rw [hm1] at hkv
      simp only [List.mem_map] at hkv
      obtain ⟨pi, hpi, rfl⟩ := hkv
      have : pi ∈ installer_id := hpi
      simp only [installer_id, List.mem_cons, List.not_mem_nil, or_false] at this
      rcases this with rfl | rfl <;> simp
    have hnone : List.lookup "Darwin" m.installer = none :=
      lookup_none_of_keys "Darwin" m.installer hkeys
    unfold Install
    simp only [hnone]
  · intro sys instExit extExit m tr h
    unfold Install at h
    cases hl : List.lookup sys m.installer with
    | none =>
      rw [hl] at h
      simp only [Prod.mk.injEq, Option.some.injEq] at h
      exact absurd h.2 (by simp)
    | some ip => simp [hl]

/-- A download oracle whose every request succeeds with path `"f"`. -/
def dlGood : String → String → String := fun _ _ => "f"

/-- An installer-exit oracle reporting success. -/
def exitZero : String → Int := fun _ => 0

/-- A batch-extension-install exit oracle reporting success. -/
def extExitZero : List String → Int := fun _ => 0

/-- The manifest captured by `Clone dlGood "1.85.0" "abc123" []`. -/
def mGood : Manifest :=
  ⟨"1.85.0", "abc123", [("Linux", "f"), ("Windows", "f")], [("Linux", "f"), ("Windows", "f")], []⟩

/-- Witness for C8: on `"Darwin"` the apply of a captured manifest performs no
effect and dies with the installer-map `KeyError`. -/
theorem c8_unsupported_platform_witness :
    Install "Darwin" exitZero extExitZero mGood = ([], some (InstallError.keyError "Darwin")) :=
  c8_unsupported_platform.1 dlGood "1.85.0" "abc123" [] mGood exitZero extExitZero (by decide)

/-! ## Lemmas about recorded path shapes -/

theorem string_append_assoc (a b c : String) : a ++ b ++ c = a ++ (b ++ c) :=
  congrArg String.mk (List.append_assoc a.data b.data c.data)

theorem startsSlash_append (a b : String) (ha : startsSlash a = false)
    (hb : startsSlash b = false) : startsSlash (a ++ b) = false := by
  unfold startsSlash at *
  rw [data_append]
  cases hd : a.data with
  | nil => simpa using hb
  | cons c cs =>
    rw [hd] at ha
    simp only [List.cons_append, List.head?_cons]
    simpa using ha

theorem Download_not_slash (net : String → Option String) (uuidFor : String → String)
    (url path : String)
    (hpath : startsSlash path = false)
    (hu : ∀ u, startsSlash (uuidFor u) = false)
    (hh : ∀ u d, net u = some d → startsSlash (GetFilenameFromHeaders d) = false) :
    startsSlash (Download net uuidFor url path) = false := by
  unfold Download
  cases hn : net url with
  | none => rfl
  | some d =>
    show startsSlash (if path ≠ "" then path
      else if GetFilenameFromHeaders d ≠ "" then GetFilenameFromHeaders d
      else uuidFor url) = false
    by_cases hp : path ≠ ""
    · rw [if_pos hp]
      exact hpath
    · rw [if_neg hp]
      by_cases hhn : GetFilenameFromHeaders d ≠ ""
      · rw [if_pos hhn]
        exact hh url d hn
      · rw [if_neg hhn]
        exact hu url

theorem ExtensionFilename_not_slash (publisher package version : String)
    (platform_id : Option String) (hpub : startsSlash publisher = false) :
    startsSlash (ExtensionFilename publisher package version platform_id) = false := by
  have hdot : ∀ r : String, startsSlash ("." ++ r) = false := fun r => rfl
  unfold ExtensionFilename
  by_cases h : platform_id.getD "" ≠ ""
  · rw [if_pos h]
    simp only [string_append_assoc]
    exact startsSlash_append publisher _ hpub (hdot _)
  · rw [if_neg h]
    simp only [string_append_assoc]
    exact startsSlash_append publisher _ hpub (hdot _)

theorem publisher_not_slash (tok publisher package version : String)
    (hparse : ParseExtensionString tok = some (publisher, package, version))
    (htok : startsSlash tok = false) : startsSlash publisher = false := by
  unfold ParseExtensionString at hparse
  split at hparse
  · exact absurd hparse (by simp)
  · rename_i uid ver heq1
    split at hparse
    · exact absurd hparse (by simp)
    · rename_i pub pkg heq2
      injection hparse with hparse
      have hpub : (⟨pub⟩ : String) = publisher := congrArg Prod.fst hparse
      have h1 : splitOnChar '@' tok.data = [uid, ver] := exactlyTwo_some heq1
      have h2 : splitOnChar '.' uid = [pub, pkg] := exactlyTwo_some heq2
      have huid : uid = tok.data.takeWhile (fun x => x != '@') := by
        obtain ⟨t, ht⟩ := head_splitOnChar '@' tok.data
        rw [h1] at ht
        injection ht
      have hpubl : pub = uid.takeWhile (fun x => x != '.') := by
        obtain ⟨t, ht⟩ := head_splitOnChar '.' uid
        rw [h2] at ht
        injection ht
      rw [← hpub]
      unfold startsSlash at htok ⊢
      show (pub.head? == some '/') = false
      cases hh : pub.head? with
      | none => rfl
      | some c =>
        have hc1 : uid.head? = some c := takeWhile_head? (hpubl ▸ hh)
        have hc2 : tok.data.head? = some c := takeWhile_head? (huid ▸ hc1)
        rw [hc2] at htok
        exact htok

/-- The network oracle of the C9 counterexample: every response is OK and
carries `content-disposition: attachment; filename=/srv/evil.bin`. -/
def netEvil : String → Option String := fun _ => some "attachment; filename=/srv/evil.bin"

/-- A fixed `uuid4().hex`-style fallback name. -/
def uuidHex : String → String := fun _ => "cafebabe"

set_option maxRecDepth 100000 in
/-- Claim C9 is refuted as universally stated: a server-supplied
`content-disposition` filename is recorded verbatim, so when the server names
an absolute path the captured manifest records an absolute path, not one
relative to the manifest's directory. -/
theorem c9_relative_paths_counterexample :
    (Clone (Download netEvil uuidHex) "1.85.0" "abc123" []).bind
        (fun m => List.lookup "Linux" m.installer) = some "/srv/evil.bin" ∧
    startsSlash "/srv/evil.bin" = true := by
  constructor
  · decide
  · rfl

/-- Claim C9 (amended): every path recorded by `Clone` is relative to the
manifest's directory (it never begins with a slash, and `Clone` chdirs into
that directory before downloading) provided the externally supplied names are
themselves relative: the `uuid4().hex` fallback (always the case for real
hex strings), any filename taken from a `content-disposition` header, and the
extension tokens whose publisher prefix seeds the caller-supplied extension
filenames.  Without the header-name proviso the claim fails (see the
counterexample). -/
theorem c9_relative_paths_amended :
    ∀ (net : String → Option String) (uuidFor : String → String)
      (version commit_id : String) (ext_strs : List String) (m : Manifest),
      (∀ url, startsSlash (uuidFor url) = false) →
      (∀ url d, net url = some d → startsSlash (GetFilenameFromHeaders d) = false) →
      (∀ tok ∈ ext_strs, startsSlash tok = false) →
      Clone (Download net uuidFor) version commit_id ext_strs = some m →
      (∀ kv ∈ m.installer, startsSlash kv.2 = false) ∧
      (∀ kv ∈ m.server, startsSlash kv.2 = false) ∧
      (∀ te ∈ m.extensions, ∀ kv ∈ te.2, startsSlash kv.2 = false) := by
  intro net uuidFor version commit_id ext_strs m hu hh htoks h
  obtain ⟨h1, h2, h3⟩ := Clone_some _ version commit_id ext_strs m h
  have hdl : ∀ url path, startsSlash path = false →
      startsSlash (Download net uuidFor url path) = false :=
    fun url path hp => Download_not_slash net uuidFor url path hp hu hh
  refine ⟨?_, ?_, ?_⟩
  · obtain ⟨hm, _⟩ := fetchAll_some _ _ installer_id m.installer h1
    intro kv hkv
    rw [hm] at hkv
    simp only [List.mem_map] at hkv
    obtain ⟨pi, _, rfl⟩ := hkv
    exact hdl _ "" rfl
  · obtain ⟨hm, _⟩ := fetchAll_some _ _ server_id m.server h2
    intro kv hkv
    rw [hm] at hkv
    simp only [List.mem_map] at hkv
    obtain ⟨pi, _, rfl⟩ := hkv
    exact hdl _ "" rfl
  · intro te hte kv hkv
    obtain ⟨htokmem, publisher, package, extver, hparse, hentry⟩ :=
      fetchExtensions_some _ ext_strs m.extensions h3 te hte
    have hpub : startsSlash publisher = false :=
      publisher_not_slash te.1 publisher package extver hparse (htoks te.1 htokmem)
    unfold fetchExtensionEntry at hentry
    split_ifs at hentry with hc1 hc2
    · injection hentry with hentry
      rw [← hentry] at hkv
      rcases List.mem_append.mp hkv with hkv | hkv
      · rw [extResults_eq] at hkv
        simp only [List.mem_cons, List.not_mem_nil, or_false] at hkv
        rcases hkv with rfl | rfl
        · exact hdl _ _ (ExtensionFilename_not_slash publisher package extver _ hpub)
        · exact hdl _ _ (ExtensionFilename_not_slash publisher package extver _ hpub)
      · simp only [List.mem_singleton] at hkv
        rw [hkv]
        rfl
    · injection hentry with hentry
      rw [← hentry] at hkv
      rcases List.mem_append.mp hkv with hkv | hkv
      · rw [extResults_eq] at hkv
        simp only [List.mem_cons, List.not_mem_nil, or_false] at hkv
        rcases hkv with rfl | rfl
        · exact hdl _ _ (ExtensionFilename_not_slash publisher package extver _ hpub)
        · exact hdl _ _ (ExtensionFilename_not_slash publisher package extver _ hpub)
      · simp only [List.mem_singleton] at hkv
        rw [hkv]
        exact hdl _ _ (ExtensionFilename_not_slash publisher package extver _ hpub)

/-- A network oracle whose responses are OK but carry no usable
`content-disposition` filename. -/
def netPlain : String → Option String := fun _ => some ""

/-- The manifest captured by `Clone (Download netPlain uuidHex) "1.85.0" "abc123" []`. -/
def mRelative : Manifest :=
  ⟨"1.85.0", "abc123", [("Linux", "cafebabe"), ("Windows", "cafebabe")],
   [("Linux", "cafebabe"), ("Windows", "cafebabe")], []⟩

set_option maxRecDepth 100000 in
/-- Witness for C9 (amended): with relative fallback names every recorded
installer path stays relative. -/
theorem c9_relative_paths_amended_witness : startsSlash "cafebabe" = false :=
  (c9_relative_paths_amended netPlain uuidHex "1.85.0" "abc123" [] mRelative
      (fun _ => rfl)
      (fun _ d hd => by injection hd with hd; rw [← hd]; rfl)
      (fun tok htok => absurd htok (by simp))
      (by decide)).1 ("Linux", "cafebabe") (by decide)
